import Mathlib

/-!
Verification of the masked multi-component categorical action model of the
microrts PPO training scripts (`ppo_diverse_downsize.py`,
`ppo_diverse_maxcho.py`, `ppo_maxcho_v2.py`).

The embedding is shallow and exact: logits are rationals, the softmax layer
of `torch.distributions.Categorical` is modelled over the reals with
`Real.exp` applied to the (rational) effective logits.  `CategoricalMasked`
construction, segment splitting, the two environment mask queries of
`Agent.get_action`, and the all-false-mask checks are transcribed as
executable functions; the sampling primitive of the categorical distribution
is an abstract parameter (a function from effective logits to an index), and
probabilistic statements are made about the exact softmax probabilities.
-/

/-- The large-magnitude negative sentinel `-1e8` that every
`CategoricalMasked.__init__` variant substitutes for masked-out logits. -/
def sentinel : ℚ := -(10 ^ 8)

/-- `torch.where(cond, a, b)` for a vector `a`, a boolean vector `cond` and a
scalar fill value `b`, as used in `CategoricalMasked.__init__`. -/
def torchWhere (cond : List Bool) (a : List ℚ) (b : ℚ) : List ℚ :=
  List.zipWith (fun c x => if c then x else b) cond a

/-- Effective logits built by `CategoricalMasked.__init__` in
`ppo_diverse_downsize.py` (lines 255-263): when the mask tensor is empty the
raw logits are passed through unchanged, otherwise
`torch.where(masks, logits, -1e8)` is applied. -/
def downsizeEffectiveLogits (logits : List ℚ) (masks : List Bool) : List ℚ :=
  if masks.isEmpty then logits else torchWhere masks logits sentinel

/-- Effective logits built by `CategoricalMasked.__init__` in
`ppo_diverse_maxcho.py` (lines 270-274): `torch.where(masks, logits, -1e8)`,
with no empty-mask branch (the arguments are keyword-only). -/
def maxchoEffectiveLogits (logits : List ℚ) (masks : List Bool) : List ℚ :=
  torchWhere masks logits sentinel

/-- Effective logits built by `CategoricalMasked.__init__` in
`ppo_maxcho_v2.py` (lines 349-353): `torch.where(masks, logits, -1e8)`. -/
def v2EffectiveLogits (logits : List ℚ) (masks : List Bool) : List ℚ :=
  torchWhere masks logits sentinel

/-- `torch.split(xs, sizes, dim=1)` restricted to one row: cut `xs` into
consecutive segments of the given sizes. -/
def torchSplit (sizes : List ℕ) (xs : List α) : List (List α) :=
  match sizes with
  | [] => []
  | n :: rest => xs.take n :: torchSplit rest (xs.drop n)

/-- The number of `True` entries of a batched boolean mask tensor; the maxcho
and v2 scripts guard with `mask.sum().item() == 0`, i.e. with
`maskTrueCount = 0`. -/
def maskTrueCount (m : List (List Bool)) : ℕ :=
  (m.map (fun row => row.countP (fun b => b))).sum

/-- Observable events of one `Agent.get_action` call: the two environment
mask queries (`getUnitLocationMasks`, `getUnitActionMasks(args)`) and the
construction / sampling of the per-segment masked distributions. -/
inductive Event where
  | querySourceMask : Event
  | queryParamMask : List ℕ → Event
  | buildDist : ℕ → Event
  | sampleDist : ℕ → Event
deriving DecidableEq, Repr

/-- The batch of source choices drawn in sampling mode: per batch row, the
sampler is applied to the masked logits of segment 0
(`CategoricalMasked(logits=split_logits[0], masks=source_mask).sample()`). -/
def maxchoSourceChoices (sampler : List ℚ → ℕ) (sourceMaskEnv : List (List Bool))
    (nvec : List ℕ) (logits : List (List ℚ)) : List ℕ :=
  List.zipWith (fun row mrow => sampler (torchWhere mrow (row.take nvec.headI) sentinel))
    logits sourceMaskEnv

/-- The batch of parameter-segment choices drawn in sampling mode: for each
remaining segment `j+1`, per batch row, the sampler is applied to the masked
logits of that segment (mask segment `j` of the split parameter mask). -/
def maxchoParamChoices (sampler : List ℚ → ℕ) (paramMask : List (List Bool))
    (nvec : List ℕ) (logits : List (List ℚ)) : List (List ℕ) :=
  (List.range (nvec.length - 1)).map (fun j =>
    List.zipWith (fun row mrow =>
        sampler (torchWhere ((torchSplit (nvec.drop 1) mrow).getD j [])
          ((torchSplit nvec row).getD (j + 1) []) sentinel))
      logits paramMask)

/-- Sampling branch of `Agent.get_action` in `ppo_diverse_maxcho.py`
(lines 409-429) and `ppo_maxcho_v2.py` (lines 487-507), whose bodies are
identical: query the source mask, fail iff its batch-wide sum is zero, build
and sample the source distribution, query the parameter mask with the sampled
source indices, fail iff its batch-wide sum is zero, then build and sample one
distribution per remaining segment; the returned mask is the rowwise
concatenation of the two queried masks, and the trailing build events are the
re-construction of all per-segment distributions on the shared
eval/update path (lines 430-434 resp. 509-513). -/
def getActionMaxchoV2Sample (sampler : List ℚ → ℕ) (sourceMaskEnv : List (List Bool))
    (paramMaskEnv : List ℕ → List (List Bool)) (nvec : List ℕ)
    (logits : List (List ℚ)) :
    Except String (List (List ℕ) × List (List Bool) × List Event) :=
  if maskTrueCount sourceMaskEnv = 0 then
    Except.error "source_mask all False! Invalid action mask!"
  else if maskTrueCount
      (paramMaskEnv (maxchoSourceChoices sampler sourceMaskEnv nvec logits)) = 0 then
    Except.error "param_mask all False! Invalid action mask!"
  else
    Except.ok (maxchoSourceChoices sampler sourceMaskEnv nvec logits
        :: maxchoParamChoices sampler
            (paramMaskEnv (maxchoSourceChoices sampler sourceMaskEnv nvec logits))
            nvec logits,
      List.zipWith (fun a b => a ++ b) sourceMaskEnv
        (paramMaskEnv (maxchoSourceChoices sampler sourceMaskEnv nvec logits)),
      [Event.querySourceMask, Event.buildDist 0, Event.sampleDist 0,
          Event.queryParamMask (maxchoSourceChoices sampler sourceMaskEnv nvec logits)]
        ++ ((List.range (nvec.length - 1)).map
              (fun j => [Event.buildDist (j + 1), Event.sampleDist (j + 1)])).flatten
        ++ (List.range nvec.length).map Event.buildDist)

/-- `Agent.get_action` of `ppo_diverse_maxcho.py` / `ppo_maxcho_v2.py`: with
`action=None` the sampling branch runs; with a provided action the function
skips straight to the eval/update path, which only rebuilds the per-segment
distributions from the provided mask and echoes action and mask back. -/
def getActionMaxchoV2 (sampler : List ℚ → ℕ) (sourceMaskEnv : List (List Bool))
    (paramMaskEnv : List ℕ → List (List Bool)) (nvec : List ℕ)
    (logits : List (List ℚ)) (actionArg : Option (List (List ℕ)))
    (maskArg : Option (List (List Bool))) :
    Except String (List (List ℕ) × List (List Bool) × List Event) :=
  match actionArg with
  | some a => Except.ok (a, maskArg.getD [], (List.range nvec.length).map Event.buildDist)
  | none => getActionMaxchoV2Sample sampler sourceMaskEnv paramMaskEnv nvec logits

/-- `Agent.get_action` of `ppo_diverse_downsize.py` (lines 346-370): the
sampling branch queries the source mask (no all-false check anywhere), builds
and samples the source distribution, queries the parameter mask with the
sampled source indices, builds all remaining distributions and then samples
them; the eval branch (lines 365-367) only rebuilds the distributions from the
provided mask.  The function is total: no branch raises. -/
def getActionDownsize (sampler : List ℚ → ℕ) (sourceMaskEnv : List (List Bool))
    (paramMaskEnv : List ℕ → List (List Bool)) (nvec : List ℕ)
    (logits : List (List ℚ)) (actionArg : Option (List (List ℕ)))
    (maskArg : Option (List (List Bool))) :
    List (List ℕ) × List (List Bool) × List Event :=
  match actionArg with
  | some a => (a, maskArg.getD [], (List.range nvec.length).map Event.buildDist)
  | none =>
    (maxchoSourceChoices sampler sourceMaskEnv nvec logits
        :: maxchoParamChoices sampler
            (paramMaskEnv (maxchoSourceChoices sampler sourceMaskEnv nvec logits))
            nvec logits,
      List.zipWith (fun a b => a ++ b) sourceMaskEnv
        (paramMaskEnv (maxchoSourceChoices sampler sourceMaskEnv nvec logits)),
      [Event.querySourceMask, Event.buildDist 0, Event.sampleDist 0,
          Event.queryParamMask (maxchoSourceChoices sampler sourceMaskEnv nvec logits)]
        ++ (List.range (nvec.length - 1)).map (fun j => Event.buildDist (j + 1))
        ++ (List.range (nvec.length - 1)).map (fun j => Event.sampleDist (j + 1)))

/-- The softmax normalizing constant of `torch.distributions.Categorical`
over the given (effective) logits, in exact real arithmetic. -/
noncomputable def softmaxDenom (l : List ℚ) : ℝ :=
  ∑ i ∈ Finset.range l.length, Real.exp ((l.getD i 0 : ℚ) : ℝ)

/-- `Categorical(logits=l).probs[i]`: the softmax probability of index `i`. -/
noncomputable def categoricalProb (l : List ℚ) (i : ℕ) : ℝ :=
  Real.exp ((l.getD i 0 : ℚ) : ℝ) / softmaxDenom l

/-- `Categorical(logits=l).log_prob(i)`: torch normalizes stored logits to
`l - logsumexp(l)`, so the log-probability of index `i` is
`l i - log (softmaxDenom l)`. -/
noncomputable def categoricalLogProb (l : List ℚ) (i : ℕ) : ℝ :=
  ((l.getD i 0 : ℚ) : ℝ) - Real.log (softmaxDenom l)

/-- `Categorical(logits=l).entropy()`: `-(normalized_logits * probs).sum()`
over all indices. -/
noncomputable def categoricalEntropy (l : List ℚ) : ℝ :=
  -∑ i ∈ Finset.range l.length, categoricalLogProb l i * categoricalProb l i

/-- `CategoricalMasked.entropy` of `ppo_diverse_downsize.py` (lines 265-270):
with an empty mask it defers to the base class; otherwise
`p_log_p = self.logits * self.probs` is zeroed at masked-out positions before
the negated sum, with `self.logits` the normalized effective logits. -/
noncomputable def downsizeEntropy (logits : List ℚ) (masks : List Bool) : ℝ :=
  if masks.isEmpty then categoricalEntropy logits
  else
    -∑ i ∈ Finset.range (downsizeEffectiveLogits logits masks).length,
      (if masks.getD i false then
          categoricalLogProb (downsizeEffectiveLogits logits masks) i
            * categoricalProb (downsizeEffectiveLogits logits masks) i
        else 0)

/-- `CategoricalMasked.entropy` of `ppo_diverse_maxcho.py` (lines 276-278)
and `ppo_maxcho_v2.py` (lines 355-356): a plain passthrough to the base-class
entropy of the masked logits. -/
noncomputable def maxchoEntropy (logits : List ℚ) (masks : List Bool) : ℝ :=
  categoricalEntropy (maxchoEffectiveLogits logits masks)

/-- Log-probability of one action component under the masked distribution of
one segment (`CategoricalMasked(logits=lg, masks=mk).log_prob(a)`). -/
noncomputable def componentLogProb (lg : List ℚ) (mk : List Bool) (a : ℕ) : ℝ :=
  categoricalLogProb (torchWhere mk lg sentinel) a

/-- Joint log-probability computed on the eval/update path of
`Agent.get_action` for one batch row: the provided full-length mask is split
per `nvec` alongside the logits, and the per-segment log-probabilities of the
provided action components are summed. -/
noncomputable def evalModeLogProb (nvec : List ℕ) (logits : List ℚ)
    (mask : List Bool) (action : List ℕ) : ℝ :=
  ∑ j ∈ Finset.range nvec.length,
    componentLogProb ((torchSplit nvec logits).getD j [])
      ((torchSplit nvec mask).getD j []) (action.getD j 0)

/-- Joint log-probability computed on the sampling branch of
`ppo_diverse_downsize.py` for one batch row: the source segment uses the
queried source mask directly, and the remaining segments use the queried
parameter mask split per `nvec[1:]`. -/
noncomputable def sampleModeLogProbDownsize (nvec : List ℕ) (logits : List ℚ)
    (srcMask paramMask : List Bool) (action : List ℕ) : ℝ :=
  ∑ j ∈ Finset.range nvec.length,
    componentLogProb ((torchSplit nvec logits).getD j [])
      ((srcMask :: torchSplit (nvec.drop 1) paramMask).getD j []) (action.getD j 0)

/-- Joint log-probability returned by the sampling branch of
`ppo_diverse_maxcho.py` / `ppo_maxcho_v2.py` for one batch row: after
sampling, control falls through to the shared eval/update path with the
rowwise concatenation of the two queried masks, so the value is literally the
eval-path computation on that concatenation. -/
noncomputable def sampleModeLogProbMaxchoV2 (nvec : List ℕ) (logits : List ℚ)
    (srcMask paramMask : List Bool) (action : List ℕ) : ℝ :=
  evalModeLogProb nvec logits (srcMask ++ paramMask) action

/-- The sum, over the masked-in indices, of the exponentiated
log-probabilities of the masked distribution (the quantity of the spec's
log-prob consistency property). -/
noncomputable def sumExpLogProbMaskedIn (logits : List ℚ) (masks : List Bool) : ℝ :=
  ∑ i ∈ (Finset.range logits.length).filter (fun i => masks.getD i false = true),
    Real.exp (categoricalLogProb (torchWhere masks logits sentinel) i)

theorem torchWhere_length (cond : List Bool) (a : List ℚ) (b : ℚ) :
    (torchWhere cond a b).length = min cond.length a.length := by
  simp [torchWhere]

theorem torchWhere_getD (cond : List Bool) (a : List ℚ) (b : ℚ) (i : ℕ)
    (hlen : cond.length = a.length) (hi : i < a.length) :
    (torchWhere cond a b).getD i 0 = if cond.getD i false then a.getD i 0 else b := by
  induction cond generalizing a i with
  | nil =>
      simp only [List.length_nil] at hlen
      omega
  | cons c cs ih =>
      cases a with
      | nil => simp at hi
      | cons x xs =>
          cases i with
          | zero => simp [torchWhere]
          | succ n =>
              have hlen' : cs.length = xs.length := by simpa using hlen
              have hi' : n < xs.length := by simpa using hi
              simpa [torchWhere] using ih xs n hlen' hi'

theorem replicate_getD_of_lt (n i : ℕ) (a d : Bool) (hi : i < n) :
    (List.replicate n a).getD i d = a := by
  induction n generalizing i with
  | zero => omega
  | succ m ih =>
      cases i with
      | zero => simp [List.replicate_succ]
      | succ k => simpa [List.replicate_succ] using ih k (by omega)

theorem torchWhere_replicate_true (a : List ℚ) (b : ℚ) :
    torchWhere (List.replicate a.length true) a b = a := by
  induction a with
  | nil => rfl
  | cons x xs ih => simpa [torchWhere, List.replicate_succ] using ih

theorem softmaxDenom_pos (l : List ℚ) (h : 0 < l.length) : 0 < softmaxDenom l := by
  unfold softmaxDenom
  apply Finset.sum_pos (fun i _ => Real.exp_pos _)
  exact Finset.nonempty_range_iff.mpr (by omega)

theorem exp_getD_le_softmaxDenom (l : List ℚ) (i : ℕ) (hi : i < l.length) :
    Real.exp ((l.getD i 0 : ℚ) : ℝ) ≤ softmaxDenom l := by
  unfold softmaxDenom
  exact Finset.single_le_sum (f := fun j => Real.exp ((l.getD j 0 : ℚ) : ℝ))
    (fun j _ => (Real.exp_pos _).le) (Finset.mem_range.mpr hi)

theorem exp_categoricalLogProb (l : List ℚ) (i : ℕ) (h : 0 < l.length) :
    Real.exp (categoricalLogProb l i) = categoricalProb l i := by
  unfold categoricalLogProb categoricalProb
  rw [Real.exp_sub, Real.exp_log (softmaxDenom_pos l h)]

theorem sum_categoricalProb (l : List ℚ) (h : 0 < l.length) :
    ∑ i ∈ Finset.range l.length, categoricalProb l i = 1 := by
  have hd := softmaxDenom_pos l h
  unfold categoricalProb
  rw [← Finset.sum_div]
  rw [show ∑ i ∈ Finset.range l.length, Real.exp ((l.getD i 0 : ℚ) : ℝ) = softmaxDenom l from rfl]
  exact div_self (ne_of_gt hd)

theorem categoricalProb_pos (l : List ℚ) (i : ℕ) (h : 0 < l.length) :
    0 < categoricalProb l i := by
  exact div_pos (Real.exp_pos _) (softmaxDenom_pos l h)

theorem torchSplit_append (n : ℕ) (rest : List ℕ) (src tail : List α)
    (h : src.length = n) :
    torchSplit (n :: rest) (src ++ tail) = src :: torchSplit rest tail := by
  subst h
  simp [torchSplit]

theorem downsizeEffectiveLogits_of_ne_nil (logits : List ℚ) (masks : List Bool)
    (h : masks.isEmpty = false) :
    downsizeEffectiveLogits logits masks = torchWhere masks logits sentinel := by
  simp [downsizeEffectiveLogits, h]

/-- C4: construction of every `CategoricalMasked` distribution substitutes the
large-magnitude negative constant `-1e8` for each masked-out logit before the
softmax normalization: the effective logit equals the raw logit wherever the
mask is true and the sentinel `-1e8` wherever it is false, in both the
`ppo_diverse_downsize.py` and `ppo_maxcho_v2.py` constructors. -/
theorem C4_logit_substitution (logits : List ℚ) (masks : List Bool)
    (hlen : masks.length = logits.length) (i : ℕ) (hi : i < logits.length) :
    (downsizeEffectiveLogits logits masks).getD i 0
        = (if masks.getD i false then logits.getD i 0 else sentinel)
      ∧ (v2EffectiveLogits logits masks).getD i 0
        = (if masks.getD i false then logits.getD i 0 else sentinel)
      ∧ sentinel = -(10 ^ 8) := by
  have hne : masks.isEmpty = false := by
    cases masks with
    | nil => simp at hlen; omega
    | cons c cs => rfl
  refine ⟨?_, ?_, rfl⟩
  · rw [downsizeEffectiveLogits_of_ne_nil logits masks hne]
    exact torchWhere_getD masks logits sentinel i hlen hi
  · exact torchWhere_getD masks logits sentinel i hlen hi

theorem C4_logit_substitution_witness :
    (downsizeEffectiveLogits [1, 2] [true, false]).getD 1 0
        = (if ([true, false] : List Bool).getD 1 false
            then ([1, 2] : List ℚ).getD 1 0 else sentinel)
      ∧ (v2EffectiveLogits [1, 2] [true, false]).getD 1 0
        = (if ([true, false] : List Bool).getD 1 false
            then ([1, 2] : List ℚ).getD 1 0 else sentinel)
      ∧ sentinel = -(10 ^ 8) :=
  C4_logit_substitution [1, 2] [true, false] (by decide) 1 (by decide)

/-- C10: for every logits vector and every non-empty boolean mask, the three
`CategoricalMasked` constructors (downsize, maxcho, v2) compute the same
effective logits — raw logit where the mask is true, `-1e8` where it is false
— and therefore identical softmax probabilities and log-probabilities. -/
theorem C10_cross_variant (logits : List ℚ) (masks : List Bool) (h : masks ≠ []) :
    downsizeEffectiveLogits logits masks = maxchoEffectiveLogits logits masks
      ∧ maxchoEffectiveLogits logits masks = v2EffectiveLogits logits masks
      ∧ (∀ i, categoricalProb (downsizeEffectiveLogits logits masks) i
            = categoricalProb (v2EffectiveLogits logits masks) i)
      ∧ (∀ i, categoricalLogProb (downsizeEffectiveLogits logits masks) i
            = categoricalLogProb (v2EffectiveLogits logits masks) i) := by
  have hne : masks.isEmpty = false := by
    cases masks with
    | nil => exact absurd rfl h
    | cons c cs => rfl
  have h1 : downsizeEffectiveLogits logits masks = maxchoEffectiveLogits logits masks :=
    downsizeEffectiveLogits_of_ne_nil logits masks hne
  exact ⟨h1, rfl, fun i => by rw [h1]; rfl, fun i => by rw [h1]; rfl⟩

theorem C10_cross_variant_witness :
    downsizeEffectiveLogits [3, 5] [true, false] = maxchoEffectiveLogits [3, 5] [true, false]
      ∧ maxchoEffectiveLogits [3, 5] [true, false] = v2EffectiveLogits [3, 5] [true, false]
      ∧ (∀ i, categoricalProb (downsizeEffectiveLogits [3, 5] [true, false]) i
            = categoricalProb (v2EffectiveLogits [3, 5] [true, false]) i)
      ∧ (∀ i, categoricalLogProb (downsizeEffectiveLogits [3, 5] [true, false]) i
            = categoricalLogProb (v2EffectiveLogits [3, 5] [true, false]) i) :=
  C10_cross_variant [3, 5] [true, false] (by decide)

/-- C9: a `CategoricalMasked` distribution built from an all-true mask behaves
identically to the unmasked categorical distribution over the same logits: the
effective logits are the raw logits in every variant, the softmax
probabilities (hence the sampling distribution) and log-probabilities agree at
every index, and both entropy variants agree with the base-class entropy. -/
theorem C9_all_true_mask (logits : List ℚ) :
    maxchoEffectiveLogits logits (List.replicate logits.length true) = logits
      ∧ downsizeEffectiveLogits logits (List.replicate logits.length true) = logits
      ∧ (∀ i, categoricalProb
            (maxchoEffectiveLogits logits (List.replicate logits.length true)) i
          = categoricalProb logits i)
      ∧ (∀ i, categoricalLogProb
            (maxchoEffectiveLogits logits (List.replicate logits.length true)) i
          = categoricalLogProb logits i)
      ∧ maxchoEntropy logits (List.replicate logits.length true) = categoricalEntropy logits
      ∧ downsizeEntropy logits (List.replicate logits.length true)
          = categoricalEntropy logits := by
  have h1 : maxchoEffectiveLogits logits (List.replicate logits.length true) = logits :=
    torchWhere_replicate_true logits sentinel
  have h2 : downsizeEffectiveLogits logits (List.replicate logits.length true) = logits := by
    cases logits with
    | nil => rfl
    | cons x xs =>
        rw [downsizeEffectiveLogits_of_ne_nil (x :: xs)
          (List.replicate (x :: xs).length true) (by simp [List.replicate_succ])]
        exact torchWhere_replicate_true (x :: xs) sentinel
  refine ⟨h1, h2, fun i => by rw [h1], fun i => by rw [h1], ?_, ?_⟩
  · unfold maxchoEntropy
    rw [h1]
  · cases logits with
    | nil => rfl
    | cons x xs =>
        unfold downsizeEntropy
        rw [if_neg (by simp [List.replicate_succ])]
        rw [h2]
        unfold categoricalEntropy
        congr 1
        apply Finset.sum_congr rfl
        intro i hi
        rw [replicate_getD_of_lt _ _ _ _ (Finset.mem_range.mp hi)]
        simp

/-- C7: in evaluation mode (action and mask both provided) `Agent.get_action`
issues no environment mask query (`getUnitLocationMasks` /
`getUnitActionMasks` never appear in its event trace), and it echoes the
provided action and the provided mask back unchanged in the same tuple shape,
in both the maxcho/v2 and downsize variants. -/
theorem C7_eval_mode_frame (sampler : List ℚ → ℕ) (sourceMaskEnv : List (List Bool))
    (paramMaskEnv : List ℕ → List (List Bool)) (nvec : List ℕ)
    (logits : List (List ℚ)) (a : List (List ℕ)) (m : List (List Bool)) :
    getActionMaxchoV2 sampler sourceMaskEnv paramMaskEnv nvec logits (some a) (some m)
        = Except.ok (a, m, (List.range nvec.length).map Event.buildDist)
      ∧ getActionDownsize sampler sourceMaskEnv paramMaskEnv nvec logits (some a) (some m)
        = (a, m, (List.range nvec.length).map Event.buildDist)
      ∧ ∀ e ∈ (List.range nvec.length).map Event.buildDist,
          e ≠ Event.querySourceMask ∧ ∀ args, e ≠ Event.queryParamMask args := by
  refine ⟨rfl, rfl, ?_⟩
  intro e he
  simp only [List.mem_map, List.mem_range] at he
  obtain ⟨j, _, rfl⟩ := he
  exact ⟨by simp, fun args => by simp⟩

theorem C7_eval_mode_frame_witness :
    getActionMaxchoV2 (fun _ => 0) [[true]] (fun _ => [[true]]) [1, 1] [[0, 0]]
          (some [[2], [3]]) (some [[true, false]])
        = Except.ok ([[2], [3]], [[true, false]],
            (List.range ([1, 1] : List ℕ).length).map Event.buildDist)
      ∧ getActionDownsize (fun _ => 0) [[true]] (fun _ => [[true]]) [1, 1] [[0, 0]]
          (some [[2], [3]]) (some [[true, false]])
        = ([[2], [3]], [[true, false]],
            (List.range ([1, 1] : List ℕ).length).map Event.buildDist)
      ∧ ∀ e ∈ (List.range ([1, 1] : List ℕ).length).map Event.buildDist,
          e ≠ Event.querySourceMask ∧ ∀ args, e ≠ Event.queryParamMask args :=
  C7_eval_mode_frame (fun _ => 0) [[true]] (fun _ => [[true]]) [1, 1] [[0, 0]]
    [[2], [3]] [[true, false]]

/-- C5: round-trip — re-evaluating, in evaluation mode and with the same
logits, the (action, mask) pair produced by a sampling-mode call returns
exactly the same joint log-probability.  For the downsize variant the
sampling-mode value is computed from the un-split source mask and the
parameter mask split per `nvec[1:]`, while the evaluation-mode value splits
the concatenated recorded mask per `nvec`; the two computations agree.  For
the maxcho/v2 variant the sampling branch falls through to the shared
eval/update path, so the agreement is definitional. -/
theorem C5_round_trip (n0 : ℕ) (rest : List ℕ) (logits : List ℚ)
    (srcMask paramMask : List Bool) (action : List ℕ)
    (hsrc : srcMask.length = n0) :
    evalModeLogProb (n0 :: rest) logits (srcMask ++ paramMask) action
        = sampleModeLogProbDownsize (n0 :: rest) logits srcMask paramMask action
      ∧ evalModeLogProb (n0 :: rest) logits (srcMask ++ paramMask) action
        = sampleModeLogProbMaxchoV2 (n0 :: rest) logits srcMask paramMask action := by
  constructor
  · unfold evalModeLogProb sampleModeLogProbDownsize
    simp only [torchSplit_append n0 rest srcMask paramMask hsrc, List.drop_succ_cons,
      List.drop_zero]
  · rfl

theorem C5_round_trip_witness :
    evalModeLogProb [2, 2] [0, 0, 0, 0] ([true, true] ++ [true, false]) [0, 1]
        = sampleModeLogProbDownsize [2, 2] [0, 0, 0, 0] [true, true] [true, false] [0, 1]
      ∧ evalModeLogProb [2, 2] [0, 0, 0, 0] ([true, true] ++ [true, false]) [0, 1]
        = sampleModeLogProbMaxchoV2 [2, 2] [0, 0, 0, 0] [true, true] [true, false] [0, 1] :=
  C5_round_trip 2 [2] [0, 0, 0, 0] [true, true] [true, false] [0, 1] (by decide)

/-- C2 counterexample: with batch source mask `[[F,F],[T,T]]` — batch
element 0's source mask entirely false, element 1 legal — the maxcho/v2
sampling branch raises no error at all (the guard tests the batch-wide sum,
not each row), and batch element 0's masked distribution puts probability
`1/2` on masked-out index 0, i.e. an arbitrary masked-out index is sampled
with positive probability instead of a distinguishable error being raised. -/
theorem C2_counterexample :
    (getActionMaxchoV2Sample (fun _ => 0) [[false, false], [true, true]]
        (fun _ => [[true], [true]]) [2, 1] [[0, 0, 0], [0, 0, 0]]).isOk = true
      ∧ (([[false, false], [true, true]] : List (List Bool)).getD 0 []).any (fun b => b)
          = false
      ∧ categoricalProb (maxchoEffectiveLogits [0, 0] [false, false]) 0 = 1 / 2 := by
  refine ⟨by decide, by decide, ?_⟩
  have heff : maxchoEffectiveLogits [0, 0] [false, false] = [sentinel, sentinel] := rfl
  rw [heff]
  unfold categoricalProb softmaxDenom
  have hne := Real.exp_ne_zero (((sentinel : ℚ) : ℝ))
  simp only [List.length_cons, List.length_nil, Finset.sum_range_succ,
    Finset.sum_range_zero, List.getD_cons_zero, List.getD_cons_succ, zero_add]
  field_simp
  ring

/-- C2 (amended): in sampling mode the maxcho/v2 `get_action` raises the
distinguishable source error exactly when the source mask has no true entry
anywhere in the whole batch, and (when the source check passes) the
distinguishable parameter error exactly when the parameter mask has no true
entry anywhere in the whole batch; a single batch element with an all-false
row is not detected when another element has a legal entry (and the downsize
variant performs no such check at all). -/
theorem C2_amended_batchwide_check (sampler : List ℚ → ℕ)
    (sourceMaskEnv : List (List Bool)) (paramMaskEnv : List ℕ → List (List Bool))
    (nvec : List ℕ) (logits : List (List ℚ)) :
    (getActionMaxchoV2Sample sampler sourceMaskEnv paramMaskEnv nvec logits
        = Except.error "source_mask all False! Invalid action mask!"
      ↔ maskTrueCount sourceMaskEnv = 0)
    ∧ (maskTrueCount sourceMaskEnv ≠ 0 →
        (getActionMaxchoV2Sample sampler sourceMaskEnv paramMaskEnv nvec logits
            = Except.error "param_mask all False! Invalid action mask!"
          ↔ maskTrueCount (paramMaskEnv
              (maxchoSourceChoices sampler sourceMaskEnv nvec logits)) = 0))
    ∧ (maskTrueCount sourceMaskEnv = 0
        ↔ ∀ row ∈ sourceMaskEnv, ∀ b ∈ row, b = false) := by
  refine ⟨?_, ?_, ?_⟩
  · by_cases h1 : maskTrueCount sourceMaskEnv = 0
    · simp [getActionMaxchoV2Sample, h1]
    · by_cases h2 : maskTrueCount (paramMaskEnv
          (maxchoSourceChoices sampler sourceMaskEnv nvec logits)) = 0
      · rw [getActionMaxchoV2Sample, if_neg h1, if_pos h2]
        constructor
        · intro h
          exact absurd (Except.error.inj h) (by decide)
        · intro h
          exact absurd h h1
      · rw [getActionMaxchoV2Sample, if_neg h1, if_neg h2]
        constructor
        · intro h
          exact absurd h (by simp)
        · intro h
          exact absurd h h1
  · intro h1
    by_cases h2 : maskTrueCount (paramMaskEnv
        (maxchoSourceChoices sampler sourceMaskEnv nvec logits)) = 0
    · rw [getActionMaxchoV2Sample, if_neg h1, if_pos h2]
      simp [h2]
    · rw [getActionMaxchoV2Sample, if_neg h1, if_neg h2]
      constructor
      · intro h
        exact absurd h (by simp)
      · intro h
        exact absurd h h2
  · unfold maskTrueCount
    rw [List.sum_eq_zero_iff]
    constructor
    · intro h row hrow b hb
      have hc := h _ (List.mem_map_of_mem _ hrow)
      rw [List.countP_eq_zero] at hc
      simpa using hc b hb
    · intro h x hx
      simp only [List.mem_map] at hx
      obtain ⟨row, hrow, rfl⟩ := hx
      rw [List.countP_eq_zero]
      intro b hb
      simp [h row hrow b hb]

theorem C2_amended_batchwide_check_witness :
    (getActionMaxchoV2Sample (fun _ => 0) [[true]] (fun _ => [[true]]) [1, 1] [[0, 0]]
        = Except.error "source_mask all False! Invalid action mask!"
      ↔ maskTrueCount [[true]] = 0)
    ∧ (maskTrueCount [[true]] ≠ 0 →
        (getActionMaxchoV2Sample (fun _ => 0) [[true]] (fun _ => [[true]]) [1, 1] [[0, 0]]
            = Except.error "param_mask all False! Invalid action mask!"
          ↔ maskTrueCount ((fun _ => [[true]])
              (maxchoSourceChoices (fun _ => 0) [[true]] [1, 1] [[0, 0]])) = 0))
    ∧ (maskTrueCount [[true]] = 0
        ↔ ∀ row ∈ ([[true]] : List (List Bool)), ∀ b ∈ row, b = false) :=
  C2_amended_batchwide_check (fun _ => 0) [[true]] (fun _ => [[true]]) [1, 1] [[0, 0]]

/-- Recognizer for the parameter-mask query event. -/
def isParamQuery : Event → Bool
  | Event.queryParamMask _ => true
  | _ => false

theorem countP_isParamQuery_interleaved (n : ℕ) :
    (((List.range n).map
        (fun j => [Event.buildDist (j + 1), Event.sampleDist (j + 1)])).flatten).countP
        isParamQuery = 0 := by
  rw [List.countP_eq_zero]
  intro e he
  simp only [List.mem_flatten, List.mem_map] at he
  obtain ⟨l, ⟨j, _, rfl⟩, hel⟩ := he
  simp only [List.mem_cons, List.not_mem_nil, or_false] at hel
  rcases hel with rfl | rfl
  · simp [isParamQuery]
  · simp [isParamQuery]

theorem countP_isParamQuery_builds (n : ℕ) :
    ((List.range n).map Event.buildDist).countP isParamQuery = 0 := by
  rw [List.countP_eq_zero]
  intro e he
  simp only [List.mem_map] at he
  obtain ⟨j, _, rfl⟩ := he
  simp [isParamQuery]

/-- C8: two-stage ordering in sampling mode — the parameter-mask query
`getUnitActionMasks` appears exactly once in the trace, its argument is the
batch of source indices just sampled (the head component of the returned
action), it is preceded exactly by the source-mask query and by the
construction and sampling of the source distribution (segment 0) only, no
parameter-segment distribution is built or sampled before it, and no further
parameter-mask query follows; this holds for the maxcho/v2 sampling branch
and for the downsize sampling branch alike. -/
theorem C8_two_stage_order (sampler : List ℚ → ℕ) (sourceMaskEnv : List (List Bool))
    (paramMaskEnv : List ℕ → List (List Bool)) (nvec : List ℕ) (logits : List (List ℚ))
    (a : List (List ℕ)) (m : List (List Bool)) (tr : List Event)
    (h : getActionMaxchoV2Sample sampler sourceMaskEnv paramMaskEnv nvec logits
        = Except.ok (a, m, tr)) :
    tr.countP isParamQuery = 1
      ∧ (∃ post, tr = [Event.querySourceMask, Event.buildDist 0, Event.sampleDist 0]
            ++ Event.queryParamMask a.headI :: post
          ∧ (∀ args, Event.queryParamMask args ∉ post)
          ∧ ∀ k, 1 ≤ k →
              Event.buildDist k ∉ ([Event.querySourceMask, Event.buildDist 0,
                  Event.sampleDist 0] : List Event)
                ∧ Event.sampleDist k ∉ ([Event.querySourceMask, Event.buildDist 0,
                  Event.sampleDist 0] : List Event))
      ∧ ((getActionDownsize sampler sourceMaskEnv paramMaskEnv nvec logits none none).2.2
          = [Event.querySourceMask, Event.buildDist 0, Event.sampleDist 0]
            ++ Event.queryParamMask
                ((getActionDownsize sampler sourceMaskEnv paramMaskEnv nvec logits
                    none none).1.headI)
              :: ((List.range (nvec.length - 1)).map (fun j => Event.buildDist (j + 1))
                  ++ (List.range (nvec.length - 1)).map (fun j => Event.sampleDist (j + 1)))
          ∧ ∀ args, Event.queryParamMask args
              ∉ (List.range (nvec.length - 1)).map (fun j => Event.buildDist (j + 1))
                ++ (List.range (nvec.length - 1)).map (fun j => Event.sampleDist (j + 1))) := by
  by_cases h1 : maskTrueCount sourceMaskEnv = 0
  · rw [getActionMaxchoV2Sample, if_pos h1] at h
    exact absurd h (by simp)
  by_cases h2 : maskTrueCount (paramMaskEnv
      (maxchoSourceChoices sampler sourceMaskEnv nvec logits)) = 0
  · rw [getActionMaxchoV2Sample, if_neg h1, if_pos h2] at h
    exact absurd h (by simp)
  rw [getActionMaxchoV2Sample, if_neg h1, if_neg h2] at h
  have h3 := Except.ok.inj h
  rw [Prod.mk.injEq, Prod.mk.injEq] at h3
  obtain ⟨ha, hm, htr⟩ := h3
  subst ha
  subst hm
  subst htr
  refine ⟨?_, ⟨((List.range (nvec.length - 1)).map
      (fun j => [Event.buildDist (j + 1), Event.sampleDist (j + 1)])).flatten
      ++ (List.range nvec.length).map Event.buildDist, ?_, ?_, ?_⟩, ?_, ?_⟩
  · rw [List.countP_append, List.countP_append, countP_isParamQuery_interleaved,
      countP_isParamQuery_builds]
    simp [List.countP_cons, isParamQuery]
  · simp
  · intro args
    simp
  · intro k hk
    constructor
    · simp only [List.mem_cons, List.not_mem_nil]
      push_neg
      refine ⟨by simp, by simp; omega, by simp, by simp⟩
    · simp only [List.mem_cons, List.not_mem_nil]
      push_neg
      refine ⟨by simp, by simp, by simp; omega, by simp⟩
  · simp [getActionDownsize]
  · intro args
    simp [getActionDownsize]

theorem C8_two_stage_order_witness :
    ([Event.querySourceMask, Event.buildDist 0, Event.sampleDist 0,
        Event.queryParamMask [0], Event.buildDist 1, Event.sampleDist 1,
        Event.buildDist 0, Event.buildDist 1] : List Event).countP isParamQuery = 1
      ∧ (∃ post, ([Event.querySourceMask, Event.buildDist 0, Event.sampleDist 0,
            Event.queryParamMask [0], Event.buildDist 1, Event.sampleDist 1,
            Event.buildDist 0, Event.buildDist 1] : List Event)
            = [Event.querySourceMask, Event.buildDist 0, Event.sampleDist 0]
              ++ Event.queryParamMask ([[0], [0]] : List (List ℕ)).headI :: post
          ∧ (∀ args, Event.queryParamMask args ∉ post)
          ∧ ∀ k, 1 ≤ k →
              Event.buildDist k ∉ ([Event.querySourceMask, Event.buildDist 0,
                  Event.sampleDist 0] : List Event)
                ∧ Event.sampleDist k ∉ ([Event.querySourceMask, Event.buildDist 0,
                  Event.sampleDist 0] : List Event))
      ∧ ((getActionDownsize (fun _ => 0) [[true]] (fun _ => [[true]]) [1, 1] [[0, 0]]
            none none).2.2
          = [Event.querySourceMask, Event.buildDist 0, Event.sampleDist 0]
            ++ Event.queryParamMask
                ((getActionDownsize (fun _ => 0) [[true]] (fun _ => [[true]]) [1, 1] [[0, 0]]
                    none none).1.headI)
              :: ((List.range (([1, 1] : List ℕ).length - 1)).map
                    (fun j => Event.buildDist (j + 1))
                  ++ (List.range (([1, 1] : List ℕ).length - 1)).map
                    (fun j => Event.sampleDist (j + 1)))
          ∧ ∀ args, Event.queryParamMask args
              ∉ (List.range (([1, 1] : List ℕ).length - 1)).map
                  (fun j => Event.buildDist (j + 1))
                ++ (List.range (([1, 1] : List ℕ).length - 1)).map
                  (fun j => Event.sampleDist (j + 1))) :=
  C8_two_stage_order (fun _ => 0) [[true]] (fun _ => [[true]]) [1, 1] [[0, 0]]
    [[0], [0]] [[true, true]]
    [Event.querySourceMask, Event.buildDist 0, Event.sampleDist 0,
      Event.queryParamMask [0], Event.buildDist 1, Event.sampleDist 1,
      Event.buildDist 0, Event.buildDist 1]
    rfl

/-- C3: divergence between the entropy variants at the failing input
`logits = [0, 0]`, `masks = [True, False]`.  The downsize
`CategoricalMasked.entropy` equals the Shannon sum restricted to the single
masked-in index (the masked-out index contributes exactly zero), whereas the
maxcho/v2 passthrough `entropy()` differs from it: its sum also carries the
nonzero `p*log(p)` term of the masked-out sentinel index, so the claim that
the masked-sum behaviour holds in every variant is false of the code. -/
theorem C3_entropy_divergence :
    downsizeEntropy [0, 0] [true, false]
        = -(categoricalLogProb (maxchoEffectiveLogits [0, 0] [true, false]) 0
            * categoricalProb (maxchoEffectiveLogits [0, 0] [true, false]) 0)
      ∧ maxchoEntropy [0, 0] [true, false] ≠ downsizeEntropy [0, 0] [true, false] := by
  have heq : downsizeEffectiveLogits [0, 0] [true, false]
      = maxchoEffectiveLogits [0, 0] [true, false] := rfl
  have hlen2 : (maxchoEffectiveLogits [0, 0] [true, false]).length = 2 := rfl
  have hget0 : (maxchoEffectiveLogits [0, 0] [true, false]).getD 0 0 = 0 := rfl
  have hget1 : (maxchoEffectiveLogits [0, 0] [true, false]).getD 1 0 = sentinel := rfl
  have hA : downsizeEntropy [0, 0] [true, false]
      = -(categoricalLogProb (maxchoEffectiveLogits [0, 0] [true, false]) 0
          * categoricalProb (maxchoEffectiveLogits [0, 0] [true, false]) 0) := by
    unfold downsizeEntropy
    rw [if_neg (by decide)]
    rw [heq, hlen2]
    simp [Finset.sum_range_succ]
  have hM : maxchoEntropy [0, 0] [true, false]
      = -(categoricalLogProb (maxchoEffectiveLogits [0, 0] [true, false]) 0
            * categoricalProb (maxchoEffectiveLogits [0, 0] [true, false]) 0
          + categoricalLogProb (maxchoEffectiveLogits [0, 0] [true, false]) 1
            * categoricalProb (maxchoEffectiveLogits [0, 0] [true, false]) 1) := by
    unfold maxchoEntropy categoricalEntropy
    rw [hlen2]
    simp [Finset.sum_range_succ]
  have hden1 : (1 : ℝ) ≤ softmaxDenom (maxchoEffectiveLogits [0, 0] [true, false]) := by
    have h0 := exp_getD_le_softmaxDenom (maxchoEffectiveLogits [0, 0] [true, false]) 0
      (by rw [hlen2]; omega)
    rw [hget0] at h0
    simpa using h0
  have hL1 : categoricalLogProb (maxchoEffectiveLogits [0, 0] [true, false]) 1 < 0 := by
    unfold categoricalLogProb
    rw [hget1]
    have hlog := Real.log_nonneg hden1
    have hsent : ((sentinel : ℚ) : ℝ) < 0 := by
      norm_num [sentinel]
    linarith
  have hP1 : 0 < categoricalProb (maxchoEffectiveLogits [0, 0] [true, false]) 1 :=
    categoricalProb_pos _ 1 (by rw [hlen2]; omega)
  refine ⟨hA, ?_⟩
  rw [hA, hM]
  intro hcontra
  have hneg := mul_neg_of_neg_of_pos hL1 hP1
  have := neg_injective hcontra
  linarith

theorem getD_mem_of_lt (l : List ℚ) (i : ℕ) (d : ℚ) (hi : i < l.length) :
    l.getD i d ∈ l := by
  induction l generalizing i with
  | nil => simp at hi
  | cons x xs ih =>
      cases i with
      | zero => simp
      | succ k =>
          simp only [List.getD_cons_succ]
          exact List.mem_cons_of_mem _ (ih k (by simpa using hi))

/-- C1 counterexample: with logits `[0, 0]` and mask `[True, False]` the
masked-out index 1 has strictly positive probability under the exact softmax
over the effective logits, so the claim that every index outside the mask's
true set has zero probability in the sampled distribution is false of the
construction; the code only attenuates masked-out indices by the `-1e8`
sentinel (their probability vanishes through float32 underflow, not exactly). -/
theorem C1_counterexample :
    0 < categoricalProb (maxchoEffectiveLogits [0, 0] [true, false]) 1 :=
  categoricalProb_pos _ 1 (by decide)

/-- C1 (amended): every masked-out index has positive but vanishingly small
probability: for any masked-in index `j` with raw logit `l_j`, the masked-out
probability is at most `exp(-1e8 - l_j)`; with network-scale logits this is
far below float32 resolution, so the sampled distribution places zero
probability on masked-out indices after rounding. -/
theorem C1_amended_masked_prob_bound (logits : List ℚ) (masks : List Bool)
    (hlen : masks.length = logits.length) (i j : ℕ)
    (hi : i < logits.length) (hj : j < logits.length)
    (hmi : masks.getD i false = false) (hmj : masks.getD j false = true) :
    categoricalProb (maxchoEffectiveLogits logits masks) i
      ≤ Real.exp (((sentinel : ℚ) : ℝ) - ((logits.getD j 0 : ℚ) : ℝ)) := by
  have hefflen : (maxchoEffectiveLogits logits masks).length = logits.length := by
    unfold maxchoEffectiveLogits
    rw [torchWhere_length, hlen, min_self]
  have hgi : (maxchoEffectiveLogits logits masks).getD i 0 = sentinel := by
    unfold maxchoEffectiveLogits
    rw [torchWhere_getD masks logits sentinel i hlen hi, hmi]
    simp
  have hgj : (maxchoEffectiveLogits logits masks).getD j 0 = logits.getD j 0 := by
    unfold maxchoEffectiveLogits
    rw [torchWhere_getD masks logits sentinel j hlen hj, hmj]
    simp
  have hdenom := exp_getD_le_softmaxDenom (maxchoEffectiveLogits logits masks) j
    (by rw [hefflen]; exact hj)
  rw [hgj] at hdenom
  have hexpj : 0 < Real.exp ((logits.getD j 0 : ℚ) : ℝ) := Real.exp_pos _
  unfold categoricalProb
  rw [hgi, Real.exp_sub]
  gcongr

theorem C1_amended_masked_prob_bound_witness :
    categoricalProb (maxchoEffectiveLogits [0, 0] [true, false]) 1
      ≤ Real.exp (((sentinel : ℚ) : ℝ) - ((([0, 0] : List ℚ).getD 0 0 : ℚ) : ℝ)) :=
  C1_amended_masked_prob_bound [0, 0] [true, false] (by decide) 1 0 (by decide)
    (by decide) (by decide) (by decide)

theorem half_add_one_sq_le_exp (x : ℝ) (hx : 0 ≤ x) :
    (x / 2 + 1) ^ 2 ≤ Real.exp x := by
  have h1 : x / 2 + 1 ≤ Real.exp (x / 2) := Real.add_one_le_exp (x / 2)
  have h2 : (0 : ℝ) ≤ x / 2 + 1 := by linarith
  calc (x / 2 + 1) ^ 2 ≤ Real.exp (x / 2) ^ 2 := pow_le_pow_left₀ h2 h1 2
    _ = Real.exp x := by
        rw [sq, ← Real.exp_add]
        congr 1
        ring

theorem sentinel_tail_bound :
    Real.exp (((sentinel : ℚ) : ℝ) + 10 ^ 6) * 10 ^ 6 ≤ 1 / 10 ^ 5 := by
  have hsent : ((sentinel : ℚ) : ℝ) = -(10 ^ 8) := by
    norm_num [sentinel]
  rw [hsent]
  have hd : (-(10 ^ 8 : ℝ) + 10 ^ 6) = -(99 * 10 ^ 6) := by norm_num
  rw [hd, Real.exp_neg]
  have hlow := half_add_one_sq_le_exp (99 * 10 ^ 6 : ℝ) (by norm_num)
  have h2 : (10 ^ 11 : ℝ) ≤ Real.exp (99 * 10 ^ 6 : ℝ) := by
    refine le_trans ?_ hlow
    norm_num
  have hinv : (Real.exp (99 * 10 ^ 6 : ℝ))⁻¹ ≤ (10 ^ 11 : ℝ)⁻¹ := by
    apply inv_anti₀ (by norm_num) h2
  calc (Real.exp (99 * 10 ^ 6 : ℝ))⁻¹ * 10 ^ 6
      ≤ (10 ^ 11 : ℝ)⁻¹ * 10 ^ 6 := mul_le_mul_of_nonneg_right hinv (by norm_num)
    _ ≤ 1 / 10 ^ 5 := by norm_num

/-- C6 (amended): for a fixed `(logits, mask)` whose raw logits are bounded in
magnitude by `10^6` (network-scale values, far above the `-1e8` sentinel) and
with at most `10^6` entries, the log-probabilities over all masked-in indices
of the masked distribution, exponentiated and summed, equal 1 to within
`1e-5`; and `log_prob` at every masked-in index `i` is the finite value
`l_i - log Z` built from the raw logit `l_i`.  For unrestricted logits the
1-within-tolerance property fails (see the counterexample): a masked-in logit
below `-1e8` lets the sentinel index dominate. -/
theorem C6_amended_logprob_consistency (logits : List ℚ) (masks : List Bool)
    (hlen : masks.length = logits.length)
    (hbound : ∀ q ∈ logits, |q| ≤ 10 ^ 6)
    (hn : logits.length ≤ 10 ^ 6)
    (j : ℕ) (hj : j < logits.length) (hmj : masks.getD j false = true) :
    |sumExpLogProbMaskedIn logits masks - 1| ≤ 1 / 10 ^ 5
      ∧ ∀ i, i < logits.length → masks.getD i false = true →
        categoricalLogProb (torchWhere masks logits sentinel) i
          = ((logits.getD i 0 : ℚ) : ℝ)
            - Real.log (softmaxDenom (torchWhere masks logits sentinel)) := by
  have hefflen : (torchWhere masks logits sentinel).length = logits.length := by
    rw [torchWhere_length, hlen, min_self]
  have heffpos : 0 < (torchWhere masks logits sentinel).length := by
    rw [hefflen]
    omega
  constructor
  · have hS : sumExpLogProbMaskedIn logits masks
        = ∑ i ∈ (Finset.range logits.length).filter
            (fun i => masks.getD i false = true),
            categoricalProb (torchWhere masks logits sentinel) i := by
      unfold sumExpLogProbMaskedIn
      exact Finset.sum_congr rfl
        (fun i _ => exp_categoricalLogProb (torchWhere masks logits sentinel) i heffpos)
    have htotal : ∑ i ∈ Finset.range logits.length,
        categoricalProb (torchWhere masks logits sentinel) i = 1 := by
      have h := sum_categoricalProb (torchWhere masks logits sentinel) heffpos
      rwa [hefflen] at h
    have hsplit : (∑ i ∈ (Finset.range logits.length).filter
          (fun i => masks.getD i false = true),
          categoricalProb (torchWhere masks logits sentinel) i)
        + ∑ i ∈ (Finset.range logits.length).filter
          (fun i => ¬ masks.getD i false = true),
          categoricalProb (torchWhere masks logits sentinel) i
        = ∑ i ∈ Finset.range logits.length,
          categoricalProb (torchWhere masks logits sentinel) i :=
      Finset.sum_filter_add_sum_filter_not (Finset.range logits.length)
        (fun i => masks.getD i false = true)
        (fun i => categoricalProb (torchWhere masks logits sentinel) i)
    have hTnonneg : 0 ≤ ∑ i ∈ (Finset.range logits.length).filter
        (fun i => ¬ masks.getD i false = true),
        categoricalProb (torchWhere masks logits sentinel) i :=
      Finset.sum_nonneg (fun i _ =>
        (categoricalProb_pos (torchWhere masks logits sentinel) i heffpos).le)
    have hterm : ∀ i ∈ (Finset.range logits.length).filter
        (fun i => ¬ masks.getD i false = true),
        categoricalProb (torchWhere masks logits sentinel) i
          ≤ Real.exp (((sentinel : ℚ) : ℝ) + 10 ^ 6) := by
      intro i hi
      simp only [Finset.mem_filter, Finset.mem_range] at hi
      obtain ⟨hirange, hine⟩ := hi
      have hmi : masks.getD i false = false := by
        cases hmask : masks.getD i false
        · rfl
        · exact absurd hmask hine
      have hgi : (torchWhere masks logits sentinel).getD i 0 = sentinel := by
        rw [torchWhere_getD masks logits sentinel i hlen hirange, hmi]
        simp
      have hgj : (torchWhere masks logits sentinel).getD j 0 = logits.getD j 0 := by
        rw [torchWhere_getD masks logits sentinel j hlen hj, hmj]
        simp
      have hdenomge := exp_getD_le_softmaxDenom (torchWhere masks logits sentinel) j
        (by rw [hefflen]; exact hj)
      rw [hgj] at hdenomge
      have hlj : -(10 ^ 6 : ℚ) ≤ logits.getD j 0 := by
        have hmem := getD_mem_of_lt logits j 0 hj
        have habs := hbound _ hmem
        rw [abs_le] at habs
        exact habs.1
      have hljr : (-(10 ^ 6 : ℝ)) ≤ ((logits.getD j 0 : ℚ) : ℝ) := by
        exact_mod_cast hlj
      have hdenomge2 : Real.exp (-(10 ^ 6 : ℝ))
          ≤ softmaxDenom (torchWhere masks logits sentinel) :=
        le_trans (Real.exp_le_exp.mpr hljr) hdenomge
      unfold categoricalProb
      rw [hgi, div_le_iff₀ (softmaxDenom_pos _ heffpos)]
      calc Real.exp (((sentinel : ℚ) : ℝ))
          = Real.exp (((sentinel : ℚ) : ℝ) + 10 ^ 6) * Real.exp (-(10 ^ 6 : ℝ)) := by
            rw [← Real.exp_add]
            congr 1
            ring
        _ ≤ Real.exp (((sentinel : ℚ) : ℝ) + 10 ^ 6)
              * softmaxDenom (torchWhere masks logits sentinel) :=
            mul_le_mul_of_nonneg_left hdenomge2 (Real.exp_pos _).le
    have hTbound : ∑ i ∈ (Finset.range logits.length).filter
        (fun i => ¬ masks.getD i false = true),
        categoricalProb (torchWhere masks logits sentinel) i
        ≤ (logits.length : ℝ) * Real.exp (((sentinel : ℚ) : ℝ) + 10 ^ 6) := by
      calc ∑ i ∈ (Finset.range logits.length).filter
            (fun i => ¬ masks.getD i false = true),
            categoricalProb (torchWhere masks logits sentinel) i
          ≤ ∑ _i ∈ (Finset.range logits.length).filter
              (fun i => ¬ masks.getD i false = true),
              Real.exp (((sentinel : ℚ) : ℝ) + 10 ^ 6) := Finset.sum_le_sum hterm
        _ = ((Finset.range logits.length).filter
              (fun i => ¬ masks.getD i false = true)).card
              * Real.exp (((sentinel : ℚ) : ℝ) + 10 ^ 6) := by
            rw [Finset.sum_const, nsmul_eq_mul]
        _ ≤ (logits.length : ℝ) * Real.exp (((sentinel : ℚ) : ℝ) + 10 ^ 6) := by
            apply mul_le_mul_of_nonneg_right _ (Real.exp_pos _).le
            exact_mod_cast le_trans (Finset.card_filter_le _ _)
              (le_of_eq (Finset.card_range _))
    have hcast : (logits.length : ℝ) ≤ 10 ^ 6 := by exact_mod_cast hn
    have hfinal : (logits.length : ℝ) * Real.exp (((sentinel : ℚ) : ℝ) + 10 ^ 6)
        ≤ 1 / 10 ^ 5 := by
      calc (logits.length : ℝ) * Real.exp (((sentinel : ℚ) : ℝ) + 10 ^ 6)
          ≤ 10 ^ 6 * Real.exp (((sentinel : ℚ) : ℝ) + 10 ^ 6) :=
            mul_le_mul_of_nonneg_right hcast (Real.exp_pos _).le
        _ = Real.exp (((sentinel : ℚ) : ℝ) + 10 ^ 6) * 10 ^ 6 := mul_comm _ _
        _ ≤ 1 / 10 ^ 5 := sentinel_tail_bound
    obtain ⟨S, hSv⟩ : ∃ S, S = ∑ i ∈ (Finset.range logits.length).filter
        (fun i => masks.getD i false = true),
        categoricalProb (torchWhere masks logits sentinel) i := ⟨_, rfl⟩
    obtain ⟨T, hTv⟩ : ∃ T, T = ∑ i ∈ (Finset.range logits.length).filter
        (fun i => ¬ masks.getD i false = true),
        categoricalProb (torchWhere masks logits sentinel) i := ⟨_, rfl⟩
    rw [← hSv, ← hTv] at hsplit
    rw [← hTv] at hTnonneg hTbound
    rw [hS, ← hSv, abs_le]
    have hTc : T ≤ 1 / 10 ^ 5 := le_trans hTbound hfinal
    rw [htotal] at hsplit
    constructor
    · linarith
    · linarith
  · intro i hi hmi
    unfold categoricalLogProb
    rw [torchWhere_getD masks logits sentinel i hlen hi, hmi]
    simp

theorem C6_amended_logprob_consistency_witness :
    |sumExpLogProbMaskedIn [0, 0] [true, false] - 1| ≤ 1 / 10 ^ 5
      ∧ ∀ i, i < ([0, 0] : List ℚ).length →
        ([true, false] : List Bool).getD i false = true →
        categoricalLogProb (torchWhere [true, false] [0, 0] sentinel) i
          = ((([0, 0] : List ℚ).getD i 0 : ℚ) : ℝ)
            - Real.log (softmaxDenom (torchWhere [true, false] [0, 0] sentinel)) :=
  C6_amended_logprob_consistency [0, 0] [true, false] (by decide)
    (by decide) (by norm_num) 0 (by decide) (by decide)

theorem exp_ratio_le_half (a b : ℝ) (h : Real.exp a ≤ Real.exp b) :
    Real.exp a / (Real.exp a + Real.exp b) ≤ 1 / 2 := by
  have hea := Real.exp_pos a
  have heb := Real.exp_pos b
  rw [div_le_iff₀ (by positivity)]
  linarith

/-- C6 counterexample: for logits `[-(10^9), 0]` and mask `[True, False]` the
exponentiated log-probabilities of the masked-in indices sum to at most
`1/2`, not to 1 within `1e-5`: the only masked-in raw logit lies below the
`-1e8` sentinel, so the masked-out index dominates the softmax.  The
universally quantified claim (for every logits vector) is therefore false;
the same failure occurs in float32 arithmetic. -/
theorem C6_counterexample :
    ¬ |sumExpLogProbMaskedIn [-(10 ^ 9), 0] [true, false] - 1| ≤ 1 / 10 ^ 5 := by
  have heff : torchWhere [true, false] [-(10 ^ 9), 0] sentinel
      = [-(10 ^ 9), sentinel] := rfl
  have hfilter : (Finset.range ([-(10 ^ 9), 0] : List ℚ).length).filter
      (fun i => ([true, false] : List Bool).getD i false = true) = {0} := by decide
  have hlen : (0 : ℕ) < ([-(10 ^ 9), sentinel] : List ℚ).length := by norm_num
  have hS : sumExpLogProbMaskedIn [-(10 ^ 9), 0] [true, false]
      = categoricalProb [-(10 ^ 9), sentinel] 0 := by
    unfold sumExpLogProbMaskedIn
    rw [heff, hfilter, Finset.sum_singleton]
    exact exp_categoricalLogProb _ 0 hlen
  rw [hS]
  have hg0 : (([-(10 ^ 9), sentinel] : List ℚ).getD 0 0) = -(10 ^ 9) := rfl
  have hg1 : (([-(10 ^ 9), sentinel] : List ℚ).getD 1 0) = sentinel := rfl
  have hz : softmaxDenom [-(10 ^ 9), sentinel]
      = Real.exp (((-(10 ^ 9) : ℚ) : ℝ)) + Real.exp (((sentinel : ℚ) : ℝ)) := by
    unfold softmaxDenom
    rw [show ([-(10 ^ 9), sentinel] : List ℚ).length = 2 from rfl]
    rw [Finset.sum_range_succ, Finset.sum_range_succ, Finset.sum_range_zero, hg0, hg1]
    ring
  have he1 : Real.exp (((-(10 ^ 9) : ℚ) : ℝ)) ≤ Real.exp (((sentinel : ℚ) : ℝ)) := by
    apply Real.exp_le_exp.mpr
    have hc1 : ((-(10 ^ 9) : ℚ) : ℝ) = -(10 ^ 9 : ℝ) := by push_cast; ring
    have hc2 : ((sentinel : ℚ) : ℝ) = -(10 ^ 8 : ℝ) := by norm_num [sentinel]
    rw [hc1, hc2]
    norm_num
  have hp : categoricalProb [-(10 ^ 9), sentinel] 0 ≤ 1 / 2 := by
    unfold categoricalProb
    rw [hg0, hz]
    exact exp_ratio_le_half _ _ he1
  intro habs
  rw [abs_le] at habs
  linarith [habs.1, hp]
